import Mathlib

/-!
Verification of the cargo-n64 ROM-assembly pipeline.

Shallow embedding of the core of `cargo-n64` (files `ipl3.rs`, `header.rs`,
`elf.rs`, `lib.rs`, `fs.rs`).  Bytes are modeled as `Nat` values (the Rust
`u8` type is reflected by reducing mod 256 where a byte is widened to a
32-bit word); 32-bit wrapping arithmetic is modeled with explicit `% 2 ^ 32`.
-/

set_option maxHeartbeats 1000000

namespace CargoN64

/-- Rust constant `IPL_SIZE` from `ipl3.rs`: the boot loader blob is
0x0fc0 = 4032 bytes. -/
def IPL_SIZE : Nat := 0x0fc0

/-- Rust constant `PROGRAM_SIZE` from `ipl3.rs`: 1 MiB. -/
def PROGRAM_SIZE : Nat := 1024 * 1024

/-- Rust constant `HEADER_SIZE` from `header.rs`. -/
def HEADER_SIZE : Nat := 0x40

/-- Modulus of 32-bit wrapping arithmetic (`Wrapping<u32>`). -/
def M32 : Nat := 2 ^ 32

/-- Fixed-size boot-loader payload, mirroring Rust's `[u8; IPL_SIZE]`. -/
def IplBlob : Type := { l : List Nat // l.length = IPL_SIZE }

/-- Rust enum `IPL3` from `ipl3.rs`: one constructor per known boot-loader
variant, each carrying its 4032-byte payload. -/
inductive IPL3 : Type
  | Cic6101 (bin : IplBlob)
  | Cic6102 (bin : IplBlob)
  | Cic6103 (bin : IplBlob)
  | Cic6105 (bin : IplBlob)
  | Cic6106 (bin : IplBlob)
  | Cic7102 (bin : IplBlob)
  | Unknown (bin : IplBlob)

/-- Rust method `IPL3::get_ipl` from `ipl3.rs`. -/
def IPL3.get_ipl : IPL3 → IplBlob
  | .Cic6101 bin => bin
  | .Cic6102 bin => bin
  | .Cic6103 bin => bin
  | .Cic6105 bin => bin
  | .Cic6106 bin => bin
  | .Cic7102 bin => bin
  | .Unknown bin => bin

/-- Rust `BigEndian::read_u32` on one 4-byte chunk (each byte is a `u8`,
reflected by `% 256`). -/
def beWord (a b c d : Nat) : Nat :=
  a % 256 * 2 ^ 24 + b % 256 * 2 ^ 16 + c % 256 * 2 ^ 8 + d % 256

/-- Rust `.chunks(4)` followed by `BigEndian::read_u32` on each chunk:
the big-endian 32-bit words of a byte list.  An incomplete trailing chunk is
dropped; every call site passes a length divisible by 4. -/
def toWords : List Nat → List Nat
  | a :: b :: c :: d :: rest => beWord a b c d :: toWords rest
  | _ => []

/-- Rust `u32::rotate_left`: rotate a 32-bit value left by `n % 32` bits. -/
def rotl32 (x n : Nat) : Nat :=
  let x := x % 2 ^ 32
  let n := n % 32
  x * 2 ^ n % 2 ^ 32 + x / 2 ^ (32 - n)

/-- The six `Wrapping<u32>` accumulators of `IPL3::compute_crcs`, together
with the consumption index of the cyclic CIC-NUS-6105 word table (the
`.cycle()` iterator position). -/
structure Accs where
  acc1 : Nat
  acc2 : Nat
  acc3 : Nat
  acc4 : Nat
  acc5 : Nat
  acc6 : Nat
  iplIdx : Nat

/-- Rust `self.get_ipl().chunks(4).skip(452).take(64).cycle()` read at
consumption index `i`. -/
def iplTableCode (self : IPL3) (i : Nat) : Nat :=
  let tbl := ((toWords self.get_ipl.val).drop 452).take 64
  tbl.getD (i % tbl.length) 0

/-- One iteration of the `for chunk in &program` loop of
`IPL3::compute_crcs` from `ipl3.rs`. -/
def crcStep (self : IPL3) (s : Accs) (current : Nat) : Accs :=
  let rotated := rotl32 current (current &&& 0x1f)
  let acc1 := (s.acc1 + current) % M32
  let acc2 := if acc1 < current then (s.acc2 + 1) % M32 else s.acc2
  let acc3 := s.acc3 ^^^ current
  let acc4 := (s.acc4 + rotated) % M32
  let acc5 :=
    if s.acc5 > current then s.acc5 ^^^ rotated
    else s.acc5 ^^^ (acc1 ^^^ current)
  match self with
  | .Cic6105 _ =>
      { acc1 := acc1, acc2 := acc2, acc3 := acc3, acc4 := acc4, acc5 := acc5,
        acc6 := (s.acc6 + (current ^^^ iplTableCode self s.iplIdx)) % M32,
        iplIdx := s.iplIdx + 1 }
  | _ =>
      { acc1 := acc1, acc2 := acc2, acc3 := acc3, acc4 := acc4, acc5 := acc5,
        acc6 := (s.acc6 + (current ^^^ acc4)) % M32,
        iplIdx := s.iplIdx }

/-- Initial checksum value of `IPL3::compute_crcs` (variant-dependent). -/
def crcSeed (self : IPL3) : Nat :=
  match self with
  | .Cic6103 _ => 0xa3886759
  | .Cic6105 _ => 0xdf26f436
  | .Cic6106 _ => 0x1fea617a
  | _ => 0xf8ca4ddc

/-- Final `(crc1, crc2)` combination of `IPL3::compute_crcs`
(variant-dependent, all operations on `Wrapping<u32>`). -/
def crcFinal (self : IPL3) (s : Accs) : Nat × Nat :=
  match self with
  | .Cic6103 _ => (((s.acc1 ^^^ s.acc2) + s.acc3) % M32, ((s.acc4 ^^^ s.acc5) + s.acc6) % M32)
  | .Cic6106 _ => ((s.acc1 * s.acc2 % M32 + s.acc3) % M32, (s.acc4 * s.acc5 % M32 + s.acc6) % M32)
  | _ => (s.acc1 ^^^ s.acc2 ^^^ s.acc3, s.acc4 ^^^ s.acc5 ^^^ s.acc6)

/-- Byte stream of `IPL3::compute_crcs`: the program bytes, the one-byte
zero pad for odd program lengths (`(2 - (len & 1)) & 1`), the filesystem
bytes and then an infinite stream of zero bytes, truncated to
`PROGRAM_SIZE` bytes. -/
def crcBytesCode (program fs : List Nat) : List Nat :=
  let padding_length := (2 - program.length % 2) % 2
  let bytes := (program ++ List.replicate padding_length 0 ++ fs).take PROGRAM_SIZE
  bytes ++ List.replicate (PROGRAM_SIZE - bytes.length) 0

/-- Rust method `IPL3::compute_crcs` from `ipl3.rs`. -/
def IPL3.compute_crcs (self : IPL3) (program fs : List Nat) : Nat × Nat :=
  let seed := crcSeed self
  let init : Accs := ⟨seed, seed, seed, seed, seed, seed, 0⟩
  crcFinal self ((toWords (crcBytesCode program fs)).foldl (crcStep self) init)

/-- Rust method `IPL3::offset` from `ipl3.rs`: the entry point stored in the
header, offset for CIC-NUS-6103 and CIC-NUS-6106 (`u32` wrapping
addition). -/
def IPL3.offset (self : IPL3) (entry_point : Nat) : Nat :=
  (entry_point +
    match self with
    | .Cic6103 _ => 0x00100000
    | .Cic6106 _ => 0x00200000
    | _ => 0) % M32

/-!
Reference checksum algorithm, written from the words of the specification
(spec section 4.2, quoted by claim C1).  These definitions deliberately follow
the spec text rather than the Rust source; claim C1 compares them with
`IPL3.compute_crcs` above.
-/

/-- Spec step 1: the word stream is the 4-byte big-endian words of
`program_bytes`, then of `filesystem_bytes`, then an infinite stream of zero
words, truncated to the first `PROGRAM_SIZE / 4` = 262144 words. -/
def specWords (program fs : List Nat) : List Nat :=
  let ws := (toWords program ++ toWords fs).take (PROGRAM_SIZE / 4)
  ws ++ List.replicate (PROGRAM_SIZE / 4 - ws.length) 0

/-- Spec step 2: the variant-dependent seed constant for the six
accumulators. -/
def specSeed (self : IPL3) : Nat :=
  match self with
  | .Cic6103 _ => 0xa3886759
  | .Cic6105 _ => 0xdf26f436
  | .Cic6106 _ => 0x1fea617a
  | _ => 0xf8ca4ddc

/-- Spec step 3: the cyclic source of 64 words taken from the boot-loader
bytes starting at word index 452, wrapping around after 64 words, read at
consumption index `i`. -/
def specTable (self : IPL3) (i : Nat) : Nat :=
  (toWords self.get_ipl.val).getD (452 + i % 64) 0

/-- Spec step 4: the per-word accumulator updates, all arithmetic modulo
2 ^ 32. -/
def specStep (self : IPL3) (s : Accs) (current : Nat) : Accs :=
  let rotated := rotl32 current (current &&& 0x1f)
  let acc1 := (s.acc1 + current) % M32
  let acc2 := if acc1 < current then (s.acc2 + 1) % M32 else s.acc2
  let acc3 := s.acc3 ^^^ current
  let acc4 := (s.acc4 + rotated) % M32
  let acc5 :=
    if s.acc5 > current then s.acc5 ^^^ rotated
    else s.acc5 ^^^ (acc1 ^^^ current)
  match self with
  | .Cic6105 _ =>
      { acc1 := acc1, acc2 := acc2, acc3 := acc3, acc4 := acc4, acc5 := acc5,
        acc6 := (s.acc6 + (current ^^^ specTable self s.iplIdx)) % M32,
        iplIdx := s.iplIdx + 1 }
  | _ =>
      { acc1 := acc1, acc2 := acc2, acc3 := acc3, acc4 := acc4, acc5 := acc5,
        acc6 := (s.acc6 + (current ^^^ acc4)) % M32,
        iplIdx := s.iplIdx }

/-- Spec step 5: the variant-specific final combination. -/
def specFinal (self : IPL3) (s : Accs) : Nat × Nat :=
  match self with
  | .Cic6103 _ => (((s.acc1 ^^^ s.acc2) + s.acc3) % M32, ((s.acc4 ^^^ s.acc5) + s.acc6) % M32)
  | .Cic6106 _ => ((s.acc1 * s.acc2 % M32 + s.acc3) % M32, (s.acc4 * s.acc5 % M32 + s.acc6) % M32)
  | _ => (s.acc1 ^^^ s.acc2 ^^^ s.acc3, s.acc4 ^^^ s.acc5 ^^^ s.acc6)

/-- The reference checksum pair defined by the spec (claim C1). -/
def specComputeCrcs (self : IPL3) (program fs : List Nat) : Nat × Nat :=
  let seed := specSeed self
  let init : Accs := ⟨seed, seed, seed, seed, seed, seed, 0⟩
  specFinal self ((specWords program fs).foldl (specStep self) init)

/-!
ROM assembler: `lib.rs`.
-/

/-- Rust constant `PAD_BYTE` from `lib.rs`. -/
def PAD_BYTE : Nat := 0xFF

/-- Rust constant `MULTIPLE` from `lib.rs`: 4 MiB. -/
def MULTIPLE : Nat := 4 * 1024 * 1024

/-- Rust `Vec::resize(n, value)`: truncate or extend with copies of `value`
to exactly `n` elements. -/
def listResize (l : List Nat) (n : Nat) (value : Nat) : List Nat :=
  l.take n ++ List.replicate (n - l.length) value

/-- Rust `pad_program` from `lib.rs`: resize the program to
`max(PROGRAM_SIZE, len)` with pad byte 0xFF (never truncates). -/
def pad_program (program : List Nat) : List Nat :=
  listResize program (max PROGRAM_SIZE program.length) PAD_BYTE

/-- Rust `pad_rom` from `lib.rs`.  The Rust source computes the target length
with `f64` arithmetic: `2.0f64.powf(size.log2().ceil())` and
`(size / MULTIPLE as f64).ceil() * MULTIPLE as f64`.  For the integer sizes
involved (far below 2 ^ 53, so exactly representable, with `log2`, `ceil` and
`powf` exact on them) those expressions compute exactly the smallest power of
two that is at least `size`, namely `2 ^ Nat.clog 2 size`, and the smallest
multiple of `MULTIPLE` that is at least `size`; the model uses the exact
integer forms. -/
def pad_rom (rom : List Nat) : List Nat :=
  let size := max (HEADER_SIZE + IPL_SIZE + PROGRAM_SIZE) rom.length
  let by_power_of_2 := 2 ^ Nat.clog 2 size
  let by_multiple := (size + MULTIPLE - 1) / MULTIPLE * MULTIPLE
  listResize rom (min by_power_of_2 by_multiple) PAD_BYTE

/-!
Header encoder: `header.rs`.
-/

/-- Rust struct `N64Header` from `header.rs`.  Multi-byte fields are `Nat`
values; fixed-size byte arrays are byte lists. -/
structure N64Header where
  device_latency : Nat
  device_rw_pulse_width : Nat
  device_page_size : Nat
  device_rw_release_duration : Nat
  clock_rate : Nat
  entry_point : Nat
  release : Nat
  crc1 : Nat
  crc2 : Nat
  reserved_1 : List Nat
  name : List Nat
  reserved_2 : List Nat
  manufacturer : Nat
  cart_id : List Nat
  region_code : Nat
  reserved_3 : Nat

/-- Rust `format!` with width 20 applied to a string: pads on the right with
ASCII spaces up to 20, and leaves longer strings unchanged (no truncation).
Names are modeled as lists of ASCII byte values. -/
def formatPad20 (name : List Nat) : List Nat :=
  if name.length < 20 then name ++ List.replicate (20 - name.length) 0x20 else name

/-- Rust associated function `N64Header::new` from `header.rs`.  The result
is `none` exactly when `name.copy_from_slice(name_str.as_bytes())` panics,
i.e. when the formatted name is not exactly 20 bytes long. -/
def N64Header.new (entry_point : Nat) (name_str : List Nat) (program fs : List Nat)
    (ipl3 : IPL3) : Option N64Header :=
  let crcs := ipl3.compute_crcs program fs
  let entry_point := ipl3.offset entry_point
  let padded := formatPad20 name_str
  if padded.length = 20 then
    some { device_latency := 128, device_rw_pulse_width := 55, device_page_size := 18,
           device_rw_release_duration := 64, clock_rate := 15, entry_point := entry_point,
           release := 0, crc1 := crcs.1, crc2 := crcs.2,
           reserved_1 := List.replicate 8 0, name := padded,
           reserved_2 := List.replicate 7 0, manufacturer := 0x4E,
           cart_id := [0x4B, 0x57], region_code := 0x45, reserved_3 := 0 }
  else none

/-- Rust `u32::to_be_bytes`. -/
def u32be (x : Nat) : List Nat :=
  [x / 2 ^ 24 % 256, x / 2 ^ 16 % 256, x / 2 ^ 8 % 256, x % 256]

/-- Rust method `N64Header::to_vec` from `header.rs`: the 64 header bytes in
order. -/
def N64Header.to_vec (h : N64Header) : List Nat :=
  [h.device_latency, h.device_rw_pulse_width, h.device_page_size,
    h.device_rw_release_duration]
    ++ u32be h.clock_rate ++ u32be h.entry_point ++ u32be h.release
    ++ u32be h.crc1 ++ u32be h.crc2 ++ h.reserved_1
    ++ h.name ++ h.reserved_2 ++ [h.manufacturer] ++ h.cart_id
    ++ [h.region_code] ++ [h.reserved_3]

/-!
Build pipeline: `lib.rs`.
-/

/-- Rust enum `BuildError` from `lib.rs`, restricted to the variant the
modeled (pure) part of `build` can produce; the remaining variants concern
argument parsing, toolchain invocation and file I/O. -/
inductive BuildError
  | programTooBigError
deriving DecidableEq

/-- Rust `create_rom_image` from `lib.rs` as a pure function returning the
final ROM bytes: pad the program, build the header over the padded program
and filesystem bytes, concatenate header, boot loader, padded program and
filesystem, and pad the ROM.  The result is `none` when `N64Header::new`
panics on an over-long name. -/
def create_rom_image (name : List Nat) (entry_point : Nat) (program fs : List Nat)
    (ipl3 : IPL3) : Option (List Nat) :=
  let program := pad_program program
  (N64Header.new entry_point name program fs ipl3).map fun header =>
    pad_rom (header.to_vec ++ ipl3.get_ipl.val ++ program ++ fs)

/-- Tail of Rust `build` from `lib.rs` after ELF extraction: the program-size
check `program.len() > 1024 * 1024` aborts with `ProgramTooBigError` before
any padding, header construction or output work; otherwise the ROM image is
created. -/
def buildRom (name : List Nat) (entry_point : Nat) (program fs : List Nat)
    (ipl3 : IPL3) : Except BuildError (Option (List Nat)) :=
  if program.length > 1024 * 1024 then .error .programTooBigError
  else .ok (create_rom_image name entry_point program fs ipl3)

/-!
Executable extractor: `elf.rs`.
-/

/-- Goblin constant `header::ET_EXEC`. -/
def ET_EXEC : Nat := 2

/-- Goblin constant `header::EM_MIPS`. -/
def EM_MIPS : Nat := 8

/-- Goblin constant `section_header::SHF_EXECINSTR`. -/
def SHF_EXECINSTR : Nat := 4

/-- Errors of `dump` and `validate` from `elf.rs`: one constructor per
`ElfError::Dump(...)` message, so each failure names the violated check.
`indexOutOfRange` is the "Index out of range" error of `dump_section` when a
section's `sh_offset + sh_size` range lies outside the file data. -/
inductive ElfError
  | unexpectedType (t : Nat)
  | unexpectedMachine (m : Nat)
  | entryOutOfRange (e : Nat)
  | unexpectedEndianness
  | missingSectionHeaders
  | sectionNotFound (name : String)
  | indexOutOfRange
  | nonExecutableBoot (flags : Nat)
  | bootEntryMismatch
deriving DecidableEq

/-- Parsed ELF section header with its resolved name (`shdr_strtab`) and the
fields `dump` and `dump_section` read. -/
structure SectionHeader where
  sh_name : String
  sh_flags : Nat
  sh_addr : Nat
  sh_size : Nat
  sh_offset : Nat
deriving DecidableEq

/-- Parsed ELF file header fields used by `validate` and `dump`. -/
structure ElfHeader where
  e_type : Nat
  e_machine : Nat
  e_entry : Nat
  little_endian : Bool
deriving DecidableEq

/-- Parsed ELF file as consumed by `dump` from `elf.rs`: the parsed headers
together with the raw file bytes `data` that the section slices are taken
from. -/
structure Elf where
  header : ElfHeader
  section_headers : List SectionHeader
  data : List Nat
deriving DecidableEq

/-- Rust struct `SectionInfo` from `elf.rs`: a section header together with
the raw slice `data[sh_offset .. sh_offset + sh_size]`. -/
structure SectionInfo where
  header : SectionHeader
  binary : List Nat
deriving DecidableEq

/-- Rust `validate` from `elf.rs`. -/
def validate (elf : Elf) : Except ElfError Unit :=
  if elf.header.e_type ≠ ET_EXEC then .error (.unexpectedType elf.header.e_type)
  else if elf.header.e_machine ≠ EM_MIPS then .error (.unexpectedMachine elf.header.e_machine)
  else if elf.header.e_entry > 2 ^ 32 - 1 then .error (.entryOutOfRange elf.header.e_entry)
  else if elf.header.little_endian then .error .unexpectedEndianness
  else if elf.section_headers.isEmpty then .error .missingSectionHeaders
  else .ok ()

/-- Rust `dump_section` from `elf.rs`: find a section by name, then slice
its contents `data.get(start..end)` with `start = sh_offset` and
`end = start + sh_size`; a range past the end of the file is the
"Index out of range" error. -/
def dump_section (elf : Elf) (name : String) : Except ElfError SectionInfo :=
  match elf.section_headers.find? (fun h => h.sh_name == name) with
  | none => .error (.sectionNotFound name)
  | some h =>
    if h.sh_offset + h.sh_size ≤ elf.data.length then
      .ok ⟨h, (elf.data.drop h.sh_offset).take h.sh_size⟩
    else .error .indexOutOfRange

/-- One iteration of the `for name in [".text", ".rodata", ".data", ".got"]`
loop of `dump`: a section that `dump_section` fails on is skipped; a present
one first zero-fills the gap up to its load address if that address is ahead
of the running offset, then has its raw bytes appended, and the running
offset advances by its size. -/
def dumpStep (elf : Elf) (st : Nat × List Nat) (name : String) : Nat × List Nat :=
  match dump_section elf name with
  | .error _ => st
  | .ok sec =>
      let offset := st.1
      let binary := st.2
      let (offset, binary) :=
        if offset < sec.header.sh_addr then
          (sec.header.sh_addr, binary ++ List.replicate (sec.header.sh_addr - offset) 0)
        else (offset, binary)
      (offset + sec.header.sh_size, binary ++ sec.binary)

/-- Rust `dump` from `elf.rs` (after file read and ELF parse): validation,
the `.boot` lookup and slice, the `.boot` checks, then concatenation of the
data sections (the `?` early returns are written as explicit matches).  The
returned entry point is `elf.header.e_entry as u32`. -/
def dump (elf : Elf) : Except ElfError (Nat × List Nat) :=
  match validate elf with
  | .error e => .error e
  | .ok _ =>
    match dump_section elf ".boot" with
    | .error e => .error e
    | .ok sec =>
      if sec.header.sh_flags &&& SHF_EXECINSTR = 0 then
        .error (.nonExecutableBoot sec.header.sh_flags)
      else if sec.header.sh_addr ≠ elf.header.e_entry then
        .error .bootEntryMismatch
      else
        let st := [".text", ".rodata", ".data", ".got"].foldl (dumpStep elf)
          (sec.header.sh_addr + sec.header.sh_size, sec.binary)
        .ok (elf.header.e_entry % 2 ^ 32, st.2)

/-- An executable that passes validation and all `.boot` checks but whose
`.boot` section data range lies past the end of the file (`sh_offset` 100 in
an empty file): used by the claim C6 counterexample. -/
def elfOutOfRange : Elf :=
  ⟨⟨2, 8, 4096, false⟩, [⟨".boot", 4, 4096, 4, 100⟩], []⟩

/-!
Filesystem embedder sizing pass: `fs.rs`.
-/

/-- Rust constant `RESERVED_BYTES` from `create_filesystem` in `fs.rs`:
128 KiB reserved for FAT metadata. -/
def RESERVED_BYTES : Nat := 128 * 1024

/-- Rust `!512usize` on a 64-bit host: all bits set except bit 9. -/
def notMask512 : Nat := 2 ^ 64 - 513

/-- Pass 1 of Rust `create_filesystem` from `fs.rs`, abstracted over the
directory walk: fold `size += (stat.len() as usize + 511) & !512` over the
sizes of the regular files visited by `traverse`, starting from
`RESERVED_BYTES`. -/
def createFilesystemSize (fileSizes : List Nat) : Nat :=
  fileSizes.foldl (fun size len => size + ((len + 511) &&& notMask512)) RESERVED_BYTES

/-- The sizing stated by the spec and claim C4: 128 KiB of reserved overhead
plus each regular file's size rounded up to the next multiple of 512. -/
def claimedFilesystemSize (fileSizes : List Nat) : Nat :=
  fileSizes.foldl (fun size len => size + (len + 511) / 512 * 512) RESERVED_BYTES

/-- The all-zero boot-loader payload, used for concrete witnesses. -/
def zeroIpl : IplBlob := ⟨List.replicate IPL_SIZE 0, by simp⟩

/-!
Helper lemmas about `toWords`.
-/

theorem toWords_length : ∀ l : List Nat, (toWords l).length = l.length / 4
  | [] => by simp [toWords]
  | [_] => by simp [toWords]
  | [_, _] => by simp [toWords]
  | [_, _, _] => by simp [toWords]
  | a :: b :: c :: d :: rest => by
    have ih := toWords_length rest
    show (beWord a b c d :: toWords rest).length = (a :: b :: c :: d :: rest).length / 4
    simp only [List.length_cons, ih]
    omega

theorem toWords_append : ∀ a : List Nat, 4 ∣ a.length → ∀ b : List Nat,
    toWords (a ++ b) = toWords a ++ toWords b
  | [], _, _ => rfl
  | [_], h, _ => by
    exfalso; simp only [List.length_cons, List.length_nil] at h; omega
  | [_, _], h, _ => by
    exfalso; simp only [List.length_cons, List.length_nil] at h; omega
  | [_, _, _], h, _ => by
    exfalso; simp only [List.length_cons, List.length_nil] at h; omega
  | a :: b :: c :: d :: rest, h, bs => by
    have h4 : 4 ∣ rest.length := by simp only [List.length_cons] at h; omega
    simp only [List.cons_append]
    show beWord a b c d :: toWords (rest ++ bs)
        = (beWord a b c d :: toWords rest) ++ toWords bs
    rw [toWords_append rest h4 bs, List.cons_append]

theorem toWords_take : ∀ (l : List Nat) (n : Nat),
    toWords (l.take (4 * n)) = (toWords l).take n
  | _, 0 => by simp [toWords]
  | [], _ + 1 => by simp [toWords]
  | [a], n + 1 => by
    rw [List.take_of_length_le (by simp; omega)]
    show toWords [a] = (toWords [a]).take (n + 1)
    rfl
  | [a, b], n + 1 => by
    rw [List.take_of_length_le (by simp; omega)]
    show toWords [a, b] = (toWords [a, b]).take (n + 1)
    rfl
  | [a, b, c], n + 1 => by
    rw [List.take_of_length_le (by simp; omega)]
    show toWords [a, b, c] = (toWords [a, b, c]).take (n + 1)
    rfl
  | a :: b :: c :: d :: rest, n + 1 => by
    have h4 : 4 * (n + 1) = 4 * n + 1 + 1 + 1 + 1 := by ring
    rw [h4, List.take_succ_cons, List.take_succ_cons, List.take_succ_cons,
      List.take_succ_cons]
    show beWord a b c d :: toWords (rest.take (4 * n))
        = (beWord a b c d :: toWords rest).take (n + 1)
    rw [List.take_succ_cons, toWords_take rest n]

theorem toWords_getD_take_drop (l : List Nat) (m k i d : Nat) (h : i < k) :
    ((l.drop m).take k).getD i d = l.getD (m + i) d := by
  rw [List.getD_eq_getElem?_getD, List.getD_eq_getElem?_getD, List.getElem?_take,
    if_pos h, List.getElem?_drop]

theorem toWords_replicate : ∀ n : Nat, toWords (List.replicate (4 * n) 0) = List.replicate n 0
  | 0 => rfl
  | n + 1 => by
    have h4 : 4 * (n + 1) = 4 * n + 1 + 1 + 1 + 1 := by ring
    rw [h4, List.replicate_succ, List.replicate_succ, List.replicate_succ,
      List.replicate_succ]
    show beWord 0 0 0 0 :: toWords (List.replicate (4 * n) 0) = List.replicate (n + 1) 0
    rw [toWords_replicate n, List.replicate_succ]
    rfl

theorem iplTable_eq (self : IPL3) (i : Nat) : iplTableCode self i = specTable self i := by
  have hlen : (toWords self.get_ipl.val).length = 1008 := by
    rw [toWords_length, self.get_ipl.property]
    decide
  have htbl : (((toWords self.get_ipl.val).drop 452).take 64).length = 64 := by
    simp [hlen]
  have h64 : i % 64 < 64 := Nat.mod_lt _ (by norm_num)
  simp only [iplTableCode, specTable, htbl]
  exact toWords_getD_take_drop _ 452 64 (i % 64) 0 h64

theorem crcSeed_eq_specSeed : crcSeed = specSeed := by
  funext self
  cases self <;> rfl

theorem crcFinal_eq_specFinal : crcFinal = specFinal := by
  funext self s
  cases self <;> rfl

theorem crcStep_eq_specStep : crcStep = specStep := by
  funext self s current
  cases self <;> simp only [crcStep, specStep, iplTable_eq]

theorem crcWords_eq (program fs : List Nat) (hp : 4 ∣ program.length)
    (hf : 4 ∣ fs.length) :
    toWords (crcBytesCode program fs) = specWords program fs := by
  have hp2 : program.length % 2 = 0 := by omega
  have hbytes : crcBytesCode program fs
      = (program ++ fs).take (4 * 262144)
        ++ List.replicate (4 * 262144 - ((program ++ fs).take (4 * 262144)).length) 0 := by
    simp only [crcBytesCode, hp2, PROGRAM_SIZE]
    norm_num
  have hpre4 : 4 ∣ ((program ++ fs).take (4 * 262144)).length := by
    simp only [List.length_take, List.length_append]
    omega
  have hk4 : 4 ∣ (4 * 262144 - ((program ++ fs).take (4 * 262144)).length) := by
    omega
  have hwords : toWords ((program ++ fs).take (4 * 262144))
      = (toWords program ++ toWords fs).take 262144 := by
    rw [toWords_take, toWords_append _ hp]
  rw [hbytes, toWords_append _ hpre4, hwords, ← Nat.mul_div_cancel' hk4,
    toWords_replicate]
  simp only [specWords, PROGRAM_SIZE]
  norm_num
  simp only [List.length_take, List.length_append, toWords_length]
  omega

/-- C1: for every boot-loader variant and every pair of byte sequences whose
lengths are multiples of 4, `IPL3::compute_crcs` returns exactly the
`(crc1, crc2)` pair of the reference algorithm stated by the specification:
big-endian words of the program, then the filesystem, then zero words,
truncated to 262144 words; six accumulators seeded by the variant constant;
the per-word updates (with the CIC-NUS-6105 cyclic 64-word table starting at
word index 452) in 32-bit modular arithmetic; and the variant-specific final
combination. -/
theorem compute_crcs_matches_spec (self : IPL3) (program fs : List Nat)
    (hp : 4 ∣ program.length) (hf : 4 ∣ fs.length) :
    self.compute_crcs program fs = specComputeCrcs self program fs := by
  unfold IPL3.compute_crcs specComputeCrcs
  rw [crcWords_eq program fs hp hf, crcSeed_eq_specSeed, crcStep_eq_specStep,
    crcFinal_eq_specFinal]

/-- Witness for C1: the theorem applied at concrete word-aligned inputs. -/
theorem compute_crcs_matches_spec_witness :
    (IPL3.Cic6105 zeroIpl).compute_crcs [] []
      = specComputeCrcs (IPL3.Cic6105 zeroIpl) [] [] :=
  compute_crcs_matches_spec (IPL3.Cic6105 zeroIpl) [] [] (by decide) (by decide)

theorem crcBytesCode_fs_independent (program fs1 fs2 : List Nat)
    (h : PROGRAM_SIZE ≤ program.length) :
    crcBytesCode program fs1 = crcBytesCode program fs2 := by
  have h1 : PROGRAM_SIZE ≤ (program ++ List.replicate ((2 - program.length % 2) % 2) 0).length := by
    simp only [List.length_append, List.length_replicate]
    omega
  simp only [crcBytesCode]
  rw [List.take_append_of_le_length h1, List.take_append_of_le_length h1]

/-- C9: for every variant, once the program bytes are at least `PROGRAM_SIZE`
(1 MiB) long, `compute_crcs` is unaffected by the filesystem bytes; and since
`create_rom_image` builds the header over `pad_program program` (whose length
is always at least 1 MiB), the embedded filesystem's content never influences
the header built by `N64Header::new`, beyond its mere bytes being appended. -/
theorem compute_crcs_fs_independent (self : IPL3) (program fs1 fs2 : List Nat)
    (h : PROGRAM_SIZE ≤ program.length) :
    self.compute_crcs program fs1 = self.compute_crcs program fs2 ∧
      ∀ (entry : Nat) (name q : List Nat),
        N64Header.new entry name (pad_program q) fs1 self
          = N64Header.new entry name (pad_program q) fs2 self := by
  have hcrc : ∀ (p : List Nat), PROGRAM_SIZE ≤ p.length →
      self.compute_crcs p fs1 = self.compute_crcs p fs2 := by
    intro p hp
    unfold IPL3.compute_crcs
    rw [crcBytesCode_fs_independent p fs1 fs2 hp]
  refine ⟨hcrc program h, fun entry name q => ?_⟩
  have hpad : PROGRAM_SIZE ≤ (pad_program q).length := by
    simp only [pad_program, listResize, List.length_append, List.length_take,
      List.length_replicate]
    omega
  simp only [N64Header.new, hcrc (pad_program q) hpad]

/-- Witness for C9: the theorem applied to a 1 MiB program and two different
filesystem byte sequences. -/
theorem compute_crcs_fs_independent_witness :
    (IPL3.Cic6102 zeroIpl).compute_crcs (List.replicate PROGRAM_SIZE 0) [1, 2, 3, 4]
      = (IPL3.Cic6102 zeroIpl).compute_crcs (List.replicate PROGRAM_SIZE 0) [] :=
  (compute_crcs_fs_independent (IPL3.Cic6102 zeroIpl) (List.replicate PROGRAM_SIZE 0)
    [1, 2, 3, 4] [] (by simp)).1

/-- C7: for every 32-bit entry point, `IPL3::offset` returns the entry point
unchanged for CIC-NUS-6101, 6102, 7102, 6105 and unknown variants, adds
0x00100000 for CIC-NUS-6103 and adds 0x00200000 for CIC-NUS-6106 (the
addition is `u32` arithmetic, i.e. modulo 2 ^ 32). -/
theorem offset_mapping (x : Nat) (hx : x < 2 ^ 32) :
    (∀ bin, (IPL3.Cic6101 bin).offset x = x) ∧
    (∀ bin, (IPL3.Cic6102 bin).offset x = x) ∧
    (∀ bin, (IPL3.Cic7102 bin).offset x = x) ∧
    (∀ bin, (IPL3.Cic6105 bin).offset x = x) ∧
    (∀ bin, (IPL3.Unknown bin).offset x = x) ∧
    (∀ bin, (IPL3.Cic6103 bin).offset x = (x + 0x00100000) % 2 ^ 32) ∧
    (∀ bin, (IPL3.Cic6106 bin).offset x = (x + 0x00200000) % 2 ^ 32) := by
  refine ⟨?_, ?_, ?_, ?_, ?_, ?_, ?_⟩ <;> intro bin <;>
    simp [IPL3.offset, M32, Nat.mod_eq_of_lt] <;> omega

theorem listResize_length (l : List Nat) (n v : Nat) : (listResize l n v).length = n := by
  simp only [listResize, List.length_append, List.length_take, List.length_replicate]
  omega

theorem listResize_eq_append (l : List Nat) (n v : Nat) (h : l.length ≤ n) :
    listResize l n v = l ++ List.replicate (n - l.length) v := by
  simp only [listResize, List.take_of_length_le h]

/-- C2: pad_rom extends the ROM with 0xFF bytes (first bytes unchanged) to
length `min P2 P4`, where `S` is the maximum of the current length and
64 + 4032 + 1 MiB, `P2` is the smallest power of two at least `S` and `P4`
the smallest multiple of 4 MiB at least `S`; and a ROM whose length is
already a power of two, or a multiple of 4 MiB, no smaller than the floor is
left unchanged. -/
theorem pad_rom_correct (rom : List Nat) (S P2 P4 : Nat)
    (hS : S = max (HEADER_SIZE + IPL_SIZE + PROGRAM_SIZE) rom.length)
    (hP2 : P2 = 2 ^ Nat.clog 2 S)
    (hP4 : P4 = (S + MULTIPLE - 1) / MULTIPLE * MULTIPLE) :
    pad_rom rom = rom ++ List.replicate (min P2 P4 - rom.length) PAD_BYTE
    ∧ (pad_rom rom).length = min P2 P4
    ∧ S ≤ P2 ∧ (∀ k, S ≤ 2 ^ k → P2 ≤ 2 ^ k)
    ∧ S ≤ P4 ∧ MULTIPLE ∣ P4 ∧ (∀ m, MULTIPLE ∣ m → S ≤ m → P4 ≤ m)
    ∧ ((∃ k, rom.length = 2 ^ k) → HEADER_SIZE + IPL_SIZE + PROGRAM_SIZE ≤ rom.length →
        pad_rom rom = rom)
    ∧ (MULTIPLE ∣ rom.length → HEADER_SIZE + IPL_SIZE + PROGRAM_SIZE ≤ rom.length →
        pad_rom rom = rom) := by
  have hSP2 : S ≤ P2 := hP2 ▸ Nat.le_pow_clog (by norm_num) S
  have hP2min : ∀ k, S ≤ 2 ^ k → P2 ≤ 2 ^ k := by
    intro k hk
    rw [hP2]
    exact Nat.pow_le_pow_right (by norm_num) ((Nat.le_pow_iff_clog_le (by norm_num)).mp hk)
  have hSP4 : S ≤ P4 := by
    rw [hP4]
    simp only [MULTIPLE]
    omega
  have hP4dvd : MULTIPLE ∣ P4 := hP4 ▸ dvd_mul_left MULTIPLE ((S + MULTIPLE - 1) / MULTIPLE)
  have hP4min : ∀ m, MULTIPLE ∣ m → S ≤ m → P4 ≤ m := by
    intro m hdvd hm
    obtain ⟨j, rfl⟩ := hdvd
    rw [hP4]
    simp only [MULTIPLE] at hm ⊢
    omega
  have hlenS : rom.length ≤ S := by
    rw [hS]
    omega
  have hlen_le : rom.length ≤ min P2 P4 := by omega
  have hpad : pad_rom rom = rom ++ List.replicate (min P2 P4 - rom.length) PAD_BYTE := by
    simp only [pad_rom]
    rw [← hS, ← hP2, ← hP4]
    exact listResize_eq_append rom _ PAD_BYTE hlen_le
  have hlen : (pad_rom rom).length = min P2 P4 := by
    rw [hpad]
    simp only [List.length_append, List.length_replicate]
    omega
  have hnoop : min P2 P4 = rom.length → pad_rom rom = rom := by
    intro hm
    rw [hpad, hm, Nat.sub_self, List.replicate_zero, List.append_nil]
  refine ⟨hpad, hlen, hSP2, hP2min, hSP4, hP4dvd, hP4min, ?_, ?_⟩
  · rintro ⟨k, hk⟩ hge
    apply hnoop
    have hSL : S = rom.length := by rw [hS]; omega
    have hP2L : P2 = rom.length := by
      rw [hP2, hSL, hk, Nat.clog_pow _ _ (by norm_num)]
    have h2 : min P2 P4 ≤ P2 := Nat.min_le_left _ _
    omega
  · intro hdvd hge
    apply hnoop
    have hSL : S = rom.length := by rw [hS]; omega
    have hP4L : P4 = rom.length := by
      obtain ⟨j, hj⟩ := hdvd
      rw [hP4, hSL, hj]
      simp only [MULTIPLE]
      omega
    have h2 : min P2 P4 ≤ P4 := Nat.min_le_right _ _
    omega

/-- Witness for C2: the theorem applied to the empty ROM, whose padded length
is min(2 ^ 21, 4 MiB) = 2 MiB. -/
theorem pad_rom_correct_witness : (pad_rom []).length = min 2097152 4194304 :=
  (pad_rom_correct [] 1052672 2097152 4194304 (by decide)
    (by
      have h1 : Nat.clog 2 1052672 ≤ 21 :=
        (Nat.le_pow_iff_clog_le (by norm_num)).mp (by norm_num)
      have h2 : ¬ Nat.clog 2 1052672 ≤ 20 := fun hc =>
        absurd ((Nat.le_pow_iff_clog_le (by norm_num)).mpr hc) (by norm_num)
      have h3 : Nat.clog 2 1052672 = 21 := by omega
      rw [h3]
      norm_num)
    (by decide)).2.1

/-- Witness for C7: the mapping at the canonical entry point 0x80000400 (the
values of the Rust unit tests). -/
theorem offset_mapping_witness :
    (IPL3.Cic6101 zeroIpl).offset 0x80000400 = 0x80000400 ∧
    (IPL3.Cic6103 zeroIpl).offset 0x80000400 = (0x80000400 + 0x00100000) % 2 ^ 32 ∧
    (IPL3.Cic6106 zeroIpl).offset 0x80000400 = (0x80000400 + 0x00200000) % 2 ^ 32 :=
  ⟨(offset_mapping 0x80000400 (by norm_num)).1 zeroIpl,
    (offset_mapping 0x80000400 (by norm_num)).2.2.2.2.2.1 zeroIpl,
    (offset_mapping 0x80000400 (by norm_num)).2.2.2.2.2.2 zeroIpl⟩

/-- C3 (amended): for every name of at most 20 ASCII bytes, header
construction succeeds and the header's name field is the supplied name
space-padded on the right to exactly 20 bytes, inside a header that
serializes to exactly 64 bytes.  Names longer than 20 bytes are not
truncated; they abort construction (see the counterexample). -/
theorem n64header_name_padded (entry : Nat) (name program fs : List Nat) (ipl3 : IPL3)
    (h : name.length ≤ 20) :
    ∃ hd, N64Header.new entry name program fs ipl3 = some hd
      ∧ hd.name = name ++ List.replicate (20 - name.length) 0x20
      ∧ hd.name.length = 20
      ∧ hd.to_vec.length = 64 := by
  have hpval : formatPad20 name = name ++ List.replicate (20 - name.length) 0x20 := by
    simp only [formatPad20]
    split
    · rfl
    · have h20 : name.length = 20 := by omega
      rw [h20]
      simp
  have hpadded : (formatPad20 name).length = 20 := by
    rw [hpval]
    simp only [List.length_append, List.length_replicate]
    omega
  simp only [N64Header.new]
  rw [if_pos hpadded]
  refine ⟨_, rfl, hpval, hpadded, ?_⟩
  simp only [N64Header.to_vec, u32be, List.length_append, List.length_cons,
    List.length_nil, List.length_replicate, hpadded]

/-- C3 counterexample: header construction does not succeed for every name,
and over-long names are not truncated: a 21-byte name makes
`format!("{:20}")` return 21 bytes, so the `copy_from_slice` into the
20-byte name field panics (modeled as `none`). -/
theorem n64header_long_name_aborts :
    N64Header.new 0 (List.replicate 21 0x41) [] [] (IPL3.Unknown zeroIpl) = none := by
  simp [N64Header.new, formatPad20]

/-- Witness for C3 (amended theorem): a concrete 4-byte name is padded with
16 spaces. -/
theorem n64header_name_padded_witness :
    ∃ hd, N64Header.new 0 [0x54, 0x45, 0x53, 0x54] [] [] (IPL3.Unknown zeroIpl) = some hd
      ∧ hd.name = [0x54, 0x45, 0x53, 0x54] ++ List.replicate 16 0x20
      ∧ hd.name.length = 20
      ∧ hd.to_vec.length = 64 :=
  n64header_name_padded 0 [0x54, 0x45, 0x53, 0x54] [] [] (IPL3.Unknown zeroIpl)
    (by simp)

/-- C5: the `build` pipeline aborts with the fatal `ProgramTooBigError`
exactly when the extracted program exceeds 1 MiB, before any padding, header
construction or ROM/output work (all of which live inside
`create_rom_image`); programs of at most 1 MiB pass the check. -/
theorem build_program_size_check (name : List Nat) (entry : Nat) (program fs : List Nat)
    (ipl3 : IPL3) :
    (1024 * 1024 < program.length →
        buildRom name entry program fs ipl3 = .error .programTooBigError)
    ∧ (program.length ≤ 1024 * 1024 →
        buildRom name entry program fs ipl3
          = .ok (create_rom_image name entry program fs ipl3)) := by
  constructor
  · intro h
    simp only [buildRom, if_pos h]
  · intro h
    simp only [buildRom]
    rw [if_neg (by omega)]

/-- Witness for C5: the boundary case of a program of exactly
1 MiB + 1 byte is rejected with `ProgramTooBigError`. -/
theorem build_program_size_check_witness :
    buildRom [] 0 (List.replicate (1024 * 1024 + 1) 0) [] (IPL3.Unknown zeroIpl)
      = .error .programTooBigError :=
  (build_program_size_check [] 0 (List.replicate (1024 * 1024 + 1) 0) []
    (IPL3.Unknown zeroIpl)).1 (by simp only [List.length_replicate]; omega)

/-- C4: evaluation of the first sizing pass at a single 1-byte file.
The code computes `(1 + 511) & !512 = 0` extra bytes, so the volume size
stays at the 128 KiB reserve, while the stated rounding to the next multiple
of 512 would require 128 KiB + 512 bytes: `(len + 511) & !512` only clears
bit 9 of `len + 511` instead of rounding up (the mask should be `!511`). -/
theorem createFilesystemSize_bug :
    createFilesystemSize [1] = 131072 ∧ claimedFilesystemSize [1] = 131584 := by
  constructor <;> decide

theorem validate_ok_iff (elf : Elf) :
    validate elf = .ok () ↔
      (elf.header.e_type = ET_EXEC ∧ elf.header.e_machine = EM_MIPS
        ∧ elf.header.e_entry ≤ 2 ^ 32 - 1 ∧ elf.header.little_endian = false
        ∧ elf.section_headers ≠ []) := by
  unfold validate
  split_ifs with a b c d e <;> simp_all [List.isEmpty_iff]

theorem dump_ok_of_checks (elf : Elf) (hdr : SectionHeader)
    (htype : elf.header.e_type = ET_EXEC) (hmach : elf.header.e_machine = EM_MIPS)
    (hentry : elf.header.e_entry ≤ 2 ^ 32 - 1)
    (hend : elf.header.little_endian = false)
    (hboot : elf.section_headers.find? (fun h => h.sh_name == ".boot") = some hdr)
    (hrange : hdr.sh_offset + hdr.sh_size ≤ elf.data.length)
    (hflags : hdr.sh_flags &&& SHF_EXECINSTR ≠ 0)
    (haddr : hdr.sh_addr = elf.header.e_entry) :
    ∃ r, dump elf = .ok r := by
  have hne : elf.section_headers ≠ [] := by
    rintro hnil
    rw [hnil] at hboot
    simp [List.find?] at hboot
  have hval : validate elf = .ok () :=
    (validate_ok_iff elf).mpr ⟨htype, hmach, hentry, hend, hne⟩
  have hds : dump_section elf ".boot"
      = .ok ⟨hdr, (elf.data.drop hdr.sh_offset).take hdr.sh_size⟩ := by
    simp [dump_section, hboot, hrange]
  simp only [dump, hval, hds]
  rw [if_neg hflags, if_neg (by simp [haddr])]
  exact ⟨_, rfl⟩

/-- C6 counterexample: the claimed exhaustive enumeration of failure causes
is refuted by a concrete executable that passes every one of the eight listed
checks (executable type, MIPS machine, 32-bit entry point, big-endian,
section headers present, `.boot` found, executable, loaded exactly at the
entry point) and on which `dump` nevertheless returns a structured error:
`.boot`'s file range `sh_offset + sh_size` lies past the end of the file, so
`data.get(start..end)` in `dump_section` fails with a ninth error,
"Index out of range". -/
theorem dump_error_iff_counterexample :
    dump elfOutOfRange = .error .indexOutOfRange
      ∧ elfOutOfRange.header.e_type = ET_EXEC
      ∧ elfOutOfRange.header.e_machine = EM_MIPS
      ∧ elfOutOfRange.header.e_entry ≤ 2 ^ 32 - 1
      ∧ elfOutOfRange.header.little_endian = false
      ∧ elfOutOfRange.section_headers ≠ []
      ∧ ∃ hdr, elfOutOfRange.section_headers.find? (fun h => h.sh_name == ".boot")
            = some hdr
          ∧ hdr.sh_flags &&& SHF_EXECINSTR ≠ 0
          ∧ hdr.sh_addr = elfOutOfRange.header.e_entry := by
  refine ⟨rfl, rfl, rfl, by decide, rfl, by simp [elfOutOfRange],
    ⟨⟨".boot", 4, 4096, 4, 100⟩, rfl, by decide, rfl⟩⟩

/-- C6 (amended): the executable extractor fails (returns an error and no
image) if and only if one of its checks is violated: the file is not an
executable, the machine is not MIPS, the entry point does not fit in 32 bits,
the byte order is little-endian, there are no section headers, the `.boot`
section is absent, the `.boot` section's data range lies outside the file
("Index out of range"), `.boot` is not marked executable, or `.boot`'s load
address differs from the entry point.  Each `ElfError` constructor names the
violated check. -/
theorem dump_error_iff_amended (elf : Elf) :
    (∃ e, dump elf = .error e) ↔
      (elf.header.e_type ≠ ET_EXEC ∨ elf.header.e_machine ≠ EM_MIPS
        ∨ 2 ^ 32 ≤ elf.header.e_entry ∨ elf.header.little_endian = true
        ∨ elf.section_headers = []
        ∨ elf.section_headers.find? (fun h => h.sh_name == ".boot") = none
        ∨ ∃ hdr, elf.section_headers.find? (fun h => h.sh_name == ".boot") = some hdr
            ∧ (elf.data.length < hdr.sh_offset + hdr.sh_size
              ∨ hdr.sh_flags &&& SHF_EXECINSTR = 0
              ∨ hdr.sh_addr ≠ elf.header.e_entry)) := by
  cases hval : validate elf with
  | error e =>
    apply iff_of_true
    · exact ⟨e, by simp only [dump, hval]⟩
    · unfold validate at hval
      split_ifs at hval with a b c d f
      all_goals first
        | exact .inl a
        | exact .inr (.inl b)
        | exact .inr (.inr (.inl (by omega)))
        | exact .inr (.inr (.inr (.inl d)))
        | exact .inr (.inr (.inr (.inr (.inl (List.isEmpty_iff.mp f)))))
  | ok u =>
    obtain ⟨htype, hmach, hentry, hend, hne⟩ := (validate_ok_iff elf).mp (by rw [hval])
    cases hboot : elf.section_headers.find? (fun h => h.sh_name == ".boot") with
    | none =>
      apply iff_of_true
      · exact ⟨.sectionNotFound ".boot",
          by simp only [dump, hval, dump_section, hboot]⟩
      · simp [hboot]
    | some hdr =>
      by_cases hrange : hdr.sh_offset + hdr.sh_size ≤ elf.data.length
      · have hds : dump_section elf ".boot"
            = .ok ⟨hdr, (elf.data.drop hdr.sh_offset).take hdr.sh_size⟩ := by
          simp [dump_section, hboot, hrange]
        by_cases hflags : hdr.sh_flags &&& SHF_EXECINSTR = 0
        · apply iff_of_true
          · refine ⟨.nonExecutableBoot hdr.sh_flags, ?_⟩
            simp only [dump, hval, hds]
            rw [if_pos hflags]
          · exact .inr (.inr (.inr (.inr (.inr (.inr ⟨hdr, rfl, .inr (.inl hflags)⟩)))))
        · by_cases haddr : hdr.sh_addr = elf.header.e_entry
          · apply iff_of_false
            · obtain ⟨r, hr⟩ :=
                dump_ok_of_checks elf hdr htype hmach hentry hend hboot hrange hflags haddr
              rintro ⟨e, he⟩
              rw [hr] at he
              exact Except.noConfusion he
            · push_neg
              refine ⟨htype, hmach, by omega, by simp [hend], hne, by simp, ?_⟩
              intro hdr2 hsec2
              cases hsec2
              exact ⟨by omega, hflags, haddr⟩
          · apply iff_of_true
            · refine ⟨.bootEntryMismatch, ?_⟩
              simp only [dump, hval, hds]
              rw [if_neg hflags, if_pos haddr]
            · exact .inr (.inr (.inr (.inr (.inr (.inr ⟨hdr, rfl, .inr (.inr haddr)⟩)))))
      · apply iff_of_true
        · refine ⟨.indexOutOfRange, ?_⟩
          simp only [dump, hval, dump_section, hboot]
          rw [if_neg hrange]
        · exact .inr (.inr (.inr (.inr (.inr (.inr ⟨hdr, rfl, .inl (by omega)⟩)))))

/-- C8: extracting an executable that passes validation, whose `.boot`
section has an in-file data range, is executable and loaded exactly at the
declared entry point, and which has none of the sections `.text`, `.rodata`,
`.data`, `.got`, yields exactly the raw `.boot` bytes
`data[sh_offset .. sh_offset + sh_size]` and the unchanged entry point. -/
theorem dump_boot_roundtrip (elf : Elf) (hdr : SectionHeader)
    (htype : elf.header.e_type = ET_EXEC) (hmach : elf.header.e_machine = EM_MIPS)
    (hentry : elf.header.e_entry ≤ 2 ^ 32 - 1)
    (hend : elf.header.little_endian = false)
    (hboot : elf.section_headers.find? (fun h => h.sh_name == ".boot") = some hdr)
    (hrange : hdr.sh_offset + hdr.sh_size ≤ elf.data.length)
    (hflags : hdr.sh_flags &&& SHF_EXECINSTR ≠ 0)
    (haddr : hdr.sh_addr = elf.header.e_entry)
    (hothers : ∀ name ∈ [".text", ".rodata", ".data", ".got"],
        elf.section_headers.find? (fun h => h.sh_name == name) = none) :
    dump elf = .ok (elf.header.e_entry, (elf.data.drop hdr.sh_offset).take hdr.sh_size) := by
  have hne : elf.section_headers ≠ [] := by
    rintro hnil
    rw [hnil] at hboot
    simp [List.find?] at hboot
  have hval : validate elf = .ok () :=
    (validate_ok_iff elf).mpr ⟨htype, hmach, hentry, hend, hne⟩
  have hds : dump_section elf ".boot"
      = .ok ⟨hdr, (elf.data.drop hdr.sh_offset).take hdr.sh_size⟩ := by
    simp [dump_section, hboot, hrange]
  have hstep : ∀ st name, name ∈ [".text", ".rodata", ".data", ".got"] →
      dumpStep elf st name = st := by
    intro st name hmem
    simp [dumpStep, dump_section, hothers name hmem]
  have hfold : ∀ st : Nat × List Nat,
      [".text", ".rodata", ".data", ".got"].foldl (dumpStep elf) st = st := by
    intro st
    simp only [List.foldl_cons, List.foldl_nil]
    rw [hstep st ".text" (by simp), hstep st ".rodata" (by simp),
      hstep st ".data" (by simp), hstep st ".got" (by simp)]
  simp only [dump, hval, hds]
  rw [if_neg hflags, if_neg (by simp [haddr]), hfold,
    Nat.mod_eq_of_lt (show elf.header.e_entry < 2 ^ 32 by omega)]

/-- Witness for C8: a one-section executable whose `.boot` loads at the
entry point 4096 and covers the whole 4-byte file round-trips to its raw
content. -/
theorem dump_boot_roundtrip_witness :
    dump ⟨⟨2, 8, 4096, false⟩, [⟨".boot", 4, 4096, 4, 0⟩], [7, 8, 9, 10]⟩
      = .ok (4096, [7, 8, 9, 10]) :=
  dump_boot_roundtrip ⟨⟨2, 8, 4096, false⟩, [⟨".boot", 4, 4096, 4, 0⟩], [7, 8, 9, 10]⟩
    ⟨".boot", 4, 4096, 4, 0⟩ rfl rfl (by norm_num) rfl rfl (by norm_num) (by decide)
    rfl (by decide)

/-- C10: extraction performs no layout check on the data sections: whenever a
present section among `.text`, `.rodata`, `.data`, `.got` has a load address
at or below the running expected address, its raw bytes are appended directly
at the end of the buffer, with no gap bytes and no error; and extraction as a
whole still succeeds for every such executable once the `.boot` checks
pass. -/
theorem dumpStep_no_layout_check (elf : Elf) (offset : Nat) (binary : List Nat)
    (name : String) (sec : SectionInfo)
    (hsec : dump_section elf name = .ok sec)
    (hle : sec.header.sh_addr ≤ offset) :
    dumpStep elf (offset, binary) name
        = (offset + sec.header.sh_size, binary ++ sec.binary)
    ∧ ∀ (elf2 : Elf) (hdr2 : SectionHeader),
        elf2.header.e_type = ET_EXEC → elf2.header.e_machine = EM_MIPS →
        elf2.header.e_entry ≤ 2 ^ 32 - 1 → elf2.header.little_endian = false →
        elf2.section_headers.find? (fun h => h.sh_name == ".boot") = some hdr2 →
        hdr2.sh_offset + hdr2.sh_size ≤ elf2.data.length →
        hdr2.sh_flags &&& SHF_EXECINSTR ≠ 0 → hdr2.sh_addr = elf2.header.e_entry →
        ∃ r, dump elf2 = .ok r := by
  constructor
  · simp only [dumpStep, hsec]
    rw [if_neg (by omega)]
  · intro elf2 hdr2 h1 h2 h3 h4 h5 h6 h7 h8
    exact dump_ok_of_checks elf2 hdr2 h1 h2 h3 h4 h5 h6 h7 h8

/-- Witness for C10: a `.text` section whose load address 4096 is behind the
running offset 4104 (it overlaps `.boot`) is appended with no gap and no
error. -/
theorem dumpStep_no_layout_check_witness :
    dumpStep ⟨⟨2, 8, 4096, false⟩,
        [⟨".boot", 4, 4096, 8, 0⟩, ⟨".text", 4, 4096, 4, 4⟩],
        [1, 2, 3, 4, 5, 6, 7, 8]⟩ (4104, [1, 2]) ".text"
      = (4104 + 4, [1, 2] ++ [5, 6, 7, 8]) :=
  (dumpStep_no_layout_check ⟨⟨2, 8, 4096, false⟩,
      [⟨".boot", 4, 4096, 8, 0⟩, ⟨".text", 4, 4096, 4, 4⟩],
      [1, 2, 3, 4, 5, 6, 7, 8]⟩ 4104 [1, 2] ".text"
    ⟨⟨".text", 4, 4096, 4, 4⟩, [5, 6, 7, 8]⟩ rfl (by decide)).1

end CargoN64
